import Mathlib

/-!
Verification of `file_organizer.py` (SaucesCode/file-organizer).

This file shallowly embeds the decision logic of the program:

* the classifier inlined in `organize_files` (lines 139-157): name-pattern
  matching (Python `re.search` with `re.IGNORECASE`) followed by the
  extension lookup with its `Other/...` fallback;
* the organizer loop of `organize_files` (lines 127-186): snapshot listing,
  directory skipping, folder creation, timestamp collision renaming,
  per-file move with caught failures, and the moved-files counter;
* the reporter of `generate_report` (lines 209-312): per-directory detail
  rows, the deletion-candidate heuristic, the summary totals and the
  potential-savings percentage.

Machine reals (`time.time()` and the float division by 86400) are embedded
as rationals; Python `str.lower` is embedded as a character-wise ASCII
lowering, which agrees with Python on the ASCII inputs the rules use.
-/

/-! ### Small string utilities mirroring the Python primitives -/

/-- Character-wise lowering, embedding Python `str.lower()` (ASCII range). -/
def lowerStr (s : String) : String := ⟨s.data.map Char.toLower⟩

/-- Embedding of the Python substring test `needle in hay`. -/
def containsSub (hay needle : String) : Bool :=
  hay.data.tails.any (fun t => needle.data.isPrefixOf t)

/-- Embedding of `os.path.splitext` restricted to plain file names (no path
separators, as produced by `os.listdir`): split at the last dot, except that
a name whose characters before that dot are all dots keeps everything in the
root and gets an empty extension. -/
def splitext (p : String) : String × String :=
  match p.data.reverse.findIdx? (fun c => c = '.') with
  | none => (p, "")
  | some j =>
    if (p.data.take (p.data.length - 1 - j)).all (fun c => c = '.') then (p, "")
    else (⟨p.data.take (p.data.length - 1 - j)⟩, ⟨p.data.drop (p.data.length - 1 - j)⟩)

/-! ### Regular expressions

The name patterns of `organize_files` use only literals, alternation,
character classes, optional pieces and the bounded repetition `\d{2}`
(expanded below).  `Regex.matchRem r s` returns the possible remainders of
`s` after a match of `r` at its front; `rsearch` is the boolean content of
`re.search` (a match anywhere in the string). -/

inductive Regex where
  | eps : Regex
  | lit (c : Char) : Regex
  | cls (cs : List Char) : Regex
  | alt (a b : Regex) : Regex
  | cat (a b : Regex) : Regex
  | opt (a : Regex) : Regex

def Regex.matchRem : Regex → List Char → List (List Char)
  | .eps, s => [s]
  | .lit _, [] => []
  | .lit c, x :: xs => if x = c then [xs] else []
  | .cls _, [] => []
  | .cls cs, x :: xs => if cs.contains x then [xs] else []
  | .alt a b, s => a.matchRem s ++ b.matchRem s
  | .cat a b, s => (a.matchRem s).flatMap b.matchRem
  | .opt a, s => s :: a.matchRem s

/-- Literal word as a regex. -/
def rstr (w : String) : Regex :=
  w.data.foldr (fun c r => .cat (.lit c) r) .eps

/-- Does `r` match anywhere in `s`?  (Boolean content of `re.search`.) -/
def rsearch (r : Regex) (s : List Char) : Bool :=
  s.tails.any (fun t => !(r.matchRem t).isEmpty)

/-- The class `\d`. -/
def dig : Regex := .cls "0123456789".data

/-- The pattern `(20\d{2})[-_]?(0[1-9]|1[0-2])[-_]?(0[1-9]|[12][0-9]|3[01])`
from the `name_patterns` table (groups only bracket, they do not capture
anything the program uses). -/
def datePat : Regex :=
  .cat (.cat (rstr "20") (.cat dig dig))
    (.cat (.opt (.cls ['-', '_']))
      (.cat (.alt (.cat (.lit '0') (.cls "123456789".data)) (.cat (.lit '1') (.cls "012".data)))
        (.cat (.opt (.cls ['-', '_']))
          (.alt (.alt (.cat (.lit '0') (.cls "123456789".data)) (.cat (.cls "12".data) dig))
            (.cat (.lit '3') (.cls "01".data))))))

/-! ### The rule tables (lines 49-125 of the source) -/

/-- `extension_map` of `organize_files`, in source order (a Python dict with
unique keys; only lookup is used, so order is irrelevant here). -/
def extension_map : List (String × String) :=
  [(".doc", "Documents/Word"), (".docx", "Documents/Word"),
   (".pdf", "Documents/PDF"), (".txt", "Documents/Text"),
   (".rtf", "Documents/Text"), (".xlsx", "Documents/Excel"),
   (".xls", "Documents/Excel"), (".pptx", "Documents/PowerPoint"),
   (".ppt", "Documents/PowerPoint"),
   (".jpg", "Images/JPEG"), (".jpeg", "Images/JPEG"),
   (".png", "Images/PNG"), (".gif", "Images/GIF"),
   (".bmp", "Images/BMP"), (".svg", "Images/SVG"),
   (".mp3", "Audio/MP3"), (".wav", "Audio/WAV"),
   (".flac", "Audio/FLAC"), (".aac", "Audio/AAC"),
   (".mp4", "Video/MP4"), (".avi", "Video/AVI"),
   (".mkv", "Video/MKV"), (".mov", "Video/MOV"),
   (".zip", "Archives/ZIP"), (".rar", "Archives/RAR"),
   (".tar", "Archives/TAR"), (".gz", "Archives/GZ"),
   (".py", "Programming/Python"), (".java", "Programming/Java"),
   (".cpp", "Programming/C++"), (".c", "Programming/C"),
   (".html", "WebDevelopment"), (".htm", "WebDevelopment"),
   (".css", "WebDevelopment"), (".js", "WebDevelopment"),
   (".php", "WebDevelopment"), (".jsx", "WebDevelopment"),
   (".ts", "WebDevelopment"), (".tsx", "WebDevelopment")]

/-- `name_patterns` of `organize_files`: an ordered sequence, first match
wins (Python dicts iterate in insertion order). -/
def name_patterns : List (Regex × String) :=
  [(.alt (rstr "backup") (rstr "bak"), "BackupFiles"),
   (.alt (rstr "temp") (rstr "tmp"), "TemporaryFiles"),
   (.alt (rstr "draft") (rstr "wip"), "WorkInProgress"),
   (.alt (rstr "old") (.alt (rstr "outdated") (rstr "deprecated")), "OldFiles"),
   (.alt (rstr "screenshot") (.alt (rstr "screen") (rstr "scrn")), "Screenshots"),
   (.alt (rstr "report") (rstr "review"), "Reports"),
   (.alt (rstr "invoice") (.alt (rstr "receipt") (rstr "bill")), "FinancialDocs"),
   (.alt (rstr "log") (rstr "logs"), "LogFiles"),
   (.alt (rstr "presentation") (rstr "slides"), "Presentations"),
   (.alt (rstr "project") (rstr "prj"), "ProjectFiles"),
   (.alt (rstr "data") (rstr "dataset"), "DataFiles"),
   (.alt (rstr "test") (rstr "testing"), "TestFiles"),
   (.alt (rstr "sample") (rstr "example"), "SampleFiles"),
   (.alt (rstr "config") (.alt (rstr "cfg") (rstr "settings")), "ConfigFiles"),
   (.alt (rstr "note") (rstr "notes"), "Notes"),
   (.alt (rstr "download") (rstr "dl"), "Downloads"),
   (.alt (rstr "scan") (rstr "scanned"), "ScannedDocs"),
   (datePat, "DateFormattedFiles"),
   (.alt (rstr "website") (.alt (rstr "site") (rstr "web")), "WebProjects")]

/-! ### The classifier (lines 139-157) -/

/-- Case-insensitive search of a pattern in a filename
(`re.search(pattern, filename, re.IGNORECASE)`; the patterns are all
lower-case, so lowering the subject realises `re.IGNORECASE`). -/
def patMatches (r : Regex) (filename : String) : Bool :=
  rsearch r (lowerStr filename).data

/-- The name-pattern loop of lines 145-150: the first pattern of the table
that matches the filename yields its folder. -/
def findNameFolder (filename : String) : Option String :=
  name_patterns.findSome? (fun pf => if patMatches pf.1 filename then some pf.2 else none)

/-- The classification logic of `organize_files` lines 139-157: the
extension is `splitext(filename)[1].lower()`; if name matching is enabled
the first matching name pattern wins, otherwise the extension is looked up
in `extension_map`, with the `Other/...` fallback. -/
def classify (filename : String) (organize_by_name : Bool) : String :=
  let extension := lowerStr (splitext filename).2
  let nameFolder := if organize_by_name then findNameFolder filename else none
  match nameFolder with
  | some folder => folder
  | none =>
    match extension_map.lookup extension with
    | some folder => folder
    | none =>
      if extension = "" then "Other/No_Extension"
      else "Other/" ++ extension.drop 1

/-! ### The organizer (lines 127-186)

The filesystem below the target directory is embedded as a list of files
(relative path plus an abstract content tag) and a list of directory paths.
`os.listdir` yields each immediate child once, in an unspecified order; the
embedding fixes the order as files before directories, which the program
never depends on.  The snapshot is taken once, before any move, exactly as
`os.listdir` materialises its list before the `for` loop iterates it. -/

structure FSFile where
  path : List String
  content : Nat
deriving DecidableEq, Repr

structure FS where
  files : List FSFile
  dirs : List (List String)
deriving DecidableEq, Repr

/-- Names of the immediate child files of the directory. -/
def topFileNames (fs : FS) : List String :=
  fs.files.filterMap (fun e => match e.path with | [n] => some n | _ => none)

/-- Names of the immediate child directories of the directory. -/
def topDirNames (fs : FS) : List String :=
  fs.dirs.filterMap (fun p => match p with | [n] => some n | _ => none)

/-- The `os.listdir` snapshot. -/
def listing (fs : FS) : List String := topFileNames fs ++ topDirNames fs

/-- `os.path.exists` on a relative path: a file or a directory is there. -/
def existsPath (fs : FS) (p : List String) : Bool :=
  fs.files.any (fun e => e.path = p) || fs.dirs.contains p

/-- Splitting a category path on `/`, as `os.makedirs` decomposes the
multi-segment `folder_name` it is given (e.g. `Documents/PDF`). -/
def splitSegs : List Char → List String
  | [] => [""]
  | c :: rest =>
    match splitSegs rest with
    | [] => [String.mk [c]]
    | s :: ss => if c = '/' then "" :: s :: ss else String.mk (c :: s.data) :: ss

/-- Segments of a category path. -/
def catSegs (folder : String) : List String := splitSegs folder.data

/-- All the intermediate directories `os.makedirs` creates for `segs`. -/
def prefixesOf (segs : List String) : List (List String) :=
  (List.range segs.length).map (fun i => segs.take (i + 1))

/-- `os.makedirs(target_folder, exist_ok=True)`: every prefix of the segment
path exists afterwards (recorded by appending; membership is what counts). -/
def mkdirs (fs : FS) (segs : List String) : FS :=
  { fs with dirs := fs.dirs ++ prefixesOf segs }

/-- A broken-down `time.strftime` time. -/
structure Timestamp where
  year : Nat
  month : Nat
  day : Nat
  hour : Nat
  minute : Nat
  second : Nat
deriving DecidableEq, Repr

/-- Two-digit zero-padded decimal field (`%m`, `%d`, `%H`, `%M`, `%S`). -/
def pad2 (n : Nat) : String := ⟨[Nat.digitChar (n / 10 % 10), Nat.digitChar (n % 10)]⟩

/-- Four-digit decimal year (`%Y` for the years `localtime` produces). -/
def pad4 (n : Nat) : String :=
  ⟨[Nat.digitChar (n / 1000 % 10), Nat.digitChar (n / 100 % 10),
    Nat.digitChar (n / 10 % 10), Nat.digitChar (n % 10)]⟩

/-- `time.strftime("_%Y%m%d_%H%M%S")` (line 171). -/
def strftimeStamp (t : Timestamp) : String :=
  "_" ++ pad4 t.year ++ pad2 t.month ++ pad2 t.day ++ "_"
      ++ pad2 t.hour ++ pad2 t.minute ++ pad2 t.second

/-- One iteration of the `for filename in os.listdir(directory)` loop
(lines 132-181).  `moveFails` is the environment: whether `shutil.move`
raises for this file (permissions, locks, ...); a raise is caught by the
inner `except` and only skips this file.  A vanished source makes
`shutil.move` raise as well, with the same caught outcome. -/
def orgStep (organize_by_name : Bool) (moveFails : String → Bool) (t : Timestamp)
    (acc : FS × Nat) (filename : String) : FS × Nat :=
  let fs := acc.1
  if fs.dirs.contains [filename] then acc
  else
    let folder_name := classify filename organize_by_name
    let segs := catSegs folder_name
    let fs1 := mkdirs fs segs
    let target0 := segs ++ [filename]
    let target :=
      if existsPath fs1 target0 then
        segs ++ [(splitext filename).1 ++ strftimeStamp t ++ (splitext filename).2]
      else target0
    match fs1.files.find? (fun e => e.path = [filename]) with
    | none => (fs1, acc.2)
    | some e =>
      if moveFails filename then (fs1, acc.2)
      else
        ({ fs1 with
            files := fs1.files.filter
                (fun e2 => decide (e2.path ≠ [filename] ∧ e2.path ≠ target))
              ++ [⟨target, e.content⟩] },
          acc.2 + 1)

/-- `organize_files` (lines 127-186) on an existing directory: snapshot the
listing once, fold the per-file step over it, return the final tree and the
count of successfully moved files. -/
def organizeFiles (organize_by_name : Bool) (moveFails : String → Bool)
    (t : Timestamp) (fs : FS) : FS × Nat :=
  (listing fs).foldl (orgStep organize_by_name moveFails t) (fs, 0)

/-! ### The reporter (lines 188-312)

A directory tree is embedded as the sequence of directories `os.walk`
visits, each with its `os.path.relpath`-relative path and its file list.
Each file carries the outcome of the two metadata reads of lines 243-244:
`some (size, mtime)` when both succeed, `none` when either raises (the
`except` of line 264 then records a zeroed row).  Times are rationals;
`now` is the value of `time.time()`. -/

structure RFile where
  name : String
  stat : Option (Nat × ℚ)
deriving DecidableEq

structure RDir where
  rel : String
  files : List RFile
deriving DecidableEq

/-- `age_days = (time.time() - modified) / (60 * 60 * 24)` (line 245). -/
def ageDays (now modified : ℚ) : ℚ := (now - modified) / (60 * 60 * 24)

/-- `deletion_categories` (lines 220-221). -/
def deletion_categories : List String :=
  ["TemporaryFiles", "BackupFiles", "OldFiles", "Duplicates", "Downloads", "Cache"]

/-- The marker loop of lines 252-255: some category word occurs
case-insensitively in the relative path or in the filename. -/
def markerHit (rel_path file : String) : Bool :=
  deletion_categories.any (fun category =>
    containsSub (lowerStr rel_path) (lowerStr category)
      || containsSub (lowerStr file) (lowerStr category))

/-- The full candidate decision of lines 251-259: the marker loop, then the
age check `age_days > 180` which also sets the flag. -/
def isCandidate (rel_path file : String) (now modified : ℚ) : Bool :=
  markerHit rel_path file || decide (ageDays now modified > 180)

/-- One detail row of `file_details` (lines 247 and 265): name, size,
mtime and age on a successful stat, a zeroed row on a failed one. -/
def detailRow (now : ℚ) (f : RFile) : String × Nat × ℚ × ℚ :=
  match f.stat with
  | some (size, modified) => (f.name, size, modified, ageDays now modified)
  | none => (f.name, 0, 0, 0)

/-- `file_details` of one directory before sorting (lines 240-265). -/
def dirDetails (now : ℚ) (files : List RFile) : List (String × Nat × ℚ × ℚ) :=
  files.map (detailRow now)

/-- Stable insertion realising `list.sort(key=size, reverse=True)`:
descending by the size component.  Only the ordering criterion matters to
the claims; membership is preserved (`mem_sortBySizeDesc`). -/
def insertBySize (x : String × Nat × ℚ × ℚ) :
    List (String × Nat × ℚ × ℚ) → List (String × Nat × ℚ × ℚ)
  | [] => [x]
  | y :: ys => if x.2.1 ≤ y.2.1 then y :: insertBySize x ys else x :: y :: ys

/-- The sort of line 268. -/
def sortBySizeDesc (l : List (String × Nat × ℚ × ℚ)) : List (String × Nat × ℚ × ℚ) :=
  l.foldr insertBySize []

/-- The sorted rows the report prints for one directory (lines 268-275). -/
def dirDetailsSorted (now : ℚ) (files : List RFile) : List (String × Nat × ℚ × ℚ) :=
  sortBySizeDesc (dirDetails now files)

/-- `directory_size` (line 248): only successfully statted files add up. -/
def dirSize (files : List RFile) : Nat :=
  (files.filterMap (fun f => f.stat)).foldl (fun a s => a + s.1) 0

/-- The `potential_deletions` rows one directory contributes
(lines 250-262): only statted files are examined by the candidate check. -/
def dirDeletions (now : ℚ) (rel_path : String) (files : List RFile) :
    List (String × String × Nat × ℚ) :=
  files.filterMap (fun f =>
    match f.stat with
    | some (size, modified) =>
      if isCandidate rel_path f.name now modified then
        some (rel_path, f.name, size, ageDays now modified)
      else none
    | none => none)

/-- Relative-path label of line 229-231: the walk root prints specially. -/
def relLabel (rel : String) : String := if rel = "." then "Root Directory" else rel

/-- Directories that produce a section: the report file is dropped from
every listing (line 226) and empty listings are skipped (line 228). -/
def activeDirs (report_filename : String) (tree : List RDir) : List RDir :=
  (tree.map (fun d =>
      ⟨relLabel d.rel, d.files.filter (fun f => decide (f.name ≠ report_filename))⟩)).filter
    (fun d => decide (d.files ≠ []))

/-- Descending-size insertion for deletion rows (line 296). -/
def insertDelBySize (x : String × String × Nat × ℚ) :
    List (String × String × Nat × ℚ) → List (String × String × Nat × ℚ)
  | [] => [x]
  | y :: ys => if x.2.2.1 ≤ y.2.2.1 then y :: insertDelBySize x ys else x :: y :: ys

def sortDelBySizeDesc (l : List (String × String × Nat × ℚ)) :
    List (String × String × Nat × ℚ) :=
  l.foldr insertDelBySize []

/-- The summary data of `generate_report`. -/
structure Report where
  totalFiles : Nat
  totalSize : Nat
  deletions : List (String × String × Nat × ℚ)
  savings : Nat
  percentage : Option ℚ
deriving DecidableEq

/-- `generate_report` (lines 209-312) reduced to its data: totals over the
active directories, the accumulated deletion candidates sorted by
descending size, and the savings line.  When candidates exist but the tree
totals zero bytes, line 305 divides by zero; the `ZeroDivisionError`
reaches the handler of line 310 and the function returns `None`, embedded
as `none`. -/
def generateReport (now : ℚ) (report_filename : String) (tree : List RDir) :
    Option Report :=
  let dirs := activeDirs report_filename tree
  let totalFiles := (dirs.map (fun d => d.files.length)).sum
  let totalSize := (dirs.map (fun d => dirSize d.files)).sum
  let dels := (dirs.map (fun d => dirDeletions now d.rel d.files)).flatten
  if dels = [] then
    some ⟨totalFiles, totalSize, [], 0, none⟩
  else
    let sorted := sortDelBySizeDesc dels
    let savings := (sorted.map (fun x => x.2.2.1)).sum
    if totalSize = 0 then none
    else some ⟨totalFiles, totalSize, sorted, savings,
      some ((savings : ℚ) / (totalSize : ℚ) * 100)⟩

/-! ### Helper lemmas -/

/-- A `findSome?` over a list returns the image of the first element on
which the function fires. -/
theorem findSome_eq_of_first {α β : Type} (f : α → Option β) (l : List α)
    (i : Nat) (x : α) (v : β) (hget : l.get? i = some x) (hx : f x = some v)
    (hprev : ∀ y ∈ l.take i, f y = none) : l.findSome? f = some v := by
  induction l generalizing i with
  | nil => simp at hget
  | cons a l ih =>
    cases i with
    | zero =>
      simp at hget
      subst hget
      simp [List.findSome?_cons, hx]
    | succ i =>
      have ha : f a = none := hprev a (by simp)
      simp only [List.findSome?_cons, ha]
      exact ih i (by simpa using hget) (fun y hy => hprev y (by simp [hy]))

/-- C1: with name matching enabled, classification returns the category of
the first name pattern (in the declared order of `name_patterns`) whose
regular expression matches anywhere in the filename case-insensitively; no
later pattern and no extension rule is consulted, so a filename matching
several patterns gets the category of the earliest one. -/
theorem classify_first_pattern_wins (filename : String) (i : Nat) (p : Regex)
    (cat : String) (hget : name_patterns.get? i = some (p, cat))
    (hmatch : patMatches p filename = true)
    (hearlier : ∀ pf ∈ name_patterns.take i, patMatches pf.1 filename = false) :
    classify filename true = cat := by
  have hfind : findNameFolder filename = some cat := by
    apply findSome_eq_of_first _ _ i (p, cat) cat hget
    · simp [hmatch]
    · intro y hy
      simp [hearlier y hy]
  simp [classify, hfind]

theorem classify_first_pattern_wins_witness :
    patMatches (.alt (rstr "temp") (rstr "tmp")) "tmp_notes" = true ∧
    classify "tmp_notes" true = "TemporaryFiles" :=
  ⟨by decide,
    classify_first_pattern_wins "tmp_notes" 1 (.alt (rstr "temp") (rstr "tmp"))
      "TemporaryFiles" rfl (by decide) (by decide)⟩

/-- C8: when no name pattern matches (or name matching is disabled), a
filename whose lower-cased extension is a key of `extension_map` is
classified to that key's category, and otherwise to the fallback
`Other/<extension-without-dot>`, or `Other/No_Extension` for a filename
with no extension. -/
theorem classify_extension_lookup (filename : String) (b : Bool)
    (hname : b = true → findNameFolder filename = none) :
    (∀ cat, extension_map.lookup (lowerStr (splitext filename).2) = some cat →
        classify filename b = cat) ∧
    (extension_map.lookup (lowerStr (splitext filename).2) = none →
      lowerStr (splitext filename).2 ≠ "" →
        classify filename b = "Other/" ++ (lowerStr (splitext filename).2).drop 1) ∧
    (lowerStr (splitext filename).2 = "" →
        classify filename b = "Other/No_Extension") := by
  have hnf : (if b then findNameFolder filename else none) = none := by
    cases b with
    | false => rfl
    | true => simpa using hname rfl
  refine ⟨?_, ?_, ?_⟩
  · intro cat hcat
    simp [classify, hnf, hcat]
  · intro hnone hne
    simp [classify, hnf, hnone, hne]
  · intro hempty
    have hnone : extension_map.lookup "" = none := by decide
    simp [classify, hnf, hempty, hnone]

theorem classify_extension_lookup_witness :
    findNameFolder "music.mp3" = none ∧ classify "music.mp3" true = "Audio/MP3" :=
  ⟨by decide,
    (classify_extension_lookup "music.mp3" true (fun _ => by decide)).1
      "Audio/MP3" (by decide)⟩

theorem mem_insertBySize (a x : String × Nat × ℚ × ℚ)
    (l : List (String × Nat × ℚ × ℚ)) :
    a ∈ insertBySize x l ↔ a = x ∨ a ∈ l := by
  induction l with
  | nil => simp [insertBySize]
  | cons y ys ih =>
    by_cases h : x.2.1 ≤ y.2.1
    · simp [insertBySize, h, ih]
      tauto
    · simp [insertBySize, h]

theorem mem_sortBySizeDesc (a : String × Nat × ℚ × ℚ)
    (l : List (String × Nat × ℚ × ℚ)) :
    a ∈ sortBySizeDesc l ↔ a ∈ l := by
  induction l with
  | nil => simp [sortBySizeDesc]
  | cons y ys ih =>
    simp [sortBySizeDesc, mem_insertBySize] at *
    simp [ih]

/-- C3: during the walk a (successfully statted) file joins the
deletion-candidate list exactly when a marker word occurs
case-insensitively in its relative path or its filename, or its age
exceeds 180 days; either reason alone suffices. -/
theorem deletion_candidate_iff (now : ℚ) (rel_path : String) (files : List RFile)
    (x : String × String × Nat × ℚ) :
    x ∈ dirDeletions now rel_path files ↔
      ∃ f ∈ files, ∃ size modified, f.stat = some (size, modified) ∧
        (markerHit rel_path f.name = true ∨ ageDays now modified > 180) ∧
        x = (rel_path, f.name, size, ageDays now modified) := by
  simp only [dirDeletions, List.mem_filterMap]
  constructor
  · rintro ⟨f, hf, heq⟩
    refine ⟨f, hf, ?_⟩
    rcases hstat : f.stat with _ | ⟨size, modified⟩ <;> rw [hstat] at heq
    · simp at heq
    · by_cases hc : isCandidate rel_path f.name now modified
      · simp only [if_pos hc, Option.some.injEq] at heq
        refine ⟨size, modified, rfl, ?_, heq.symm⟩
        simpa [isCandidate] using hc
      · simp [if_neg hc] at heq
  · rintro ⟨f, hf, size, modified, hstat, hcond, rfl⟩
    refine ⟨f, hf, ?_⟩
    rw [hstat]
    have hc : isCandidate rel_path f.name now modified = true := by
      rcases hcond with h | h
      · simp [isCandidate, h]
      · simp [isCandidate, decide_eq_true h]
    simp [hc]

/-- C4 as stated is false at its first instance: `backup_2023.zip` at age
10 days, in a marker-free path, is not flagged, because the marker words
are the category folder names (`BackupFiles`, ...) and none of them occurs
in that filename. -/
theorem backup_name_not_flagged :
    dirDeletions ((10 : ℚ) * 86400) "Docs" [⟨"backup_2023.zip", some (100, 0)⟩] = [] := by
  have hm : markerHit "Docs" "backup_2023.zip" = false := by decide
  have ha : ¬ ageDays ((10 : ℚ) * 86400) 0 > 180 := by norm_num [ageDays]
  simp [dirDeletions, isCandidate, hm, ha]

/-- C4 amended: in a marker-free path, `backup_2023.zip` at age 10 days is
not flagged (no marker word, and its age is under the threshold);
`report.txt` at age 200 days is flagged for its age; `report.txt` at age 5
days is not flagged. -/
theorem deletion_candidate_instances :
    dirDeletions ((10 : ℚ) * 86400) "Docs" [⟨"backup_2023.zip", some (100, 0)⟩] = [] ∧
    dirDeletions ((200 : ℚ) * 86400) "Docs" [⟨"report.txt", some (50, 0)⟩]
      = [("Docs", "report.txt", 50, 200)] ∧
    dirDeletions ((5 : ℚ) * 86400) "Docs" [⟨"report.txt", some (50, 0)⟩] = [] := by
  refine ⟨?_, ?_, ?_⟩
  · have hm : markerHit "Docs" "backup_2023.zip" = false := by decide
    have ha : ¬ ageDays ((10 : ℚ) * 86400) 0 > 180 := by norm_num [ageDays]
    simp [dirDeletions, isCandidate, hm, ha]
  · have hage : ageDays ((200 : ℚ) * 86400) 0 = 200 := by norm_num [ageDays]
    have h200 : (180 : ℚ) < 200 := by norm_num
    simp [dirDeletions, isCandidate, hage, h200]
  · have hm : markerHit "Docs" "report.txt" = false := by decide
    have ha : ¬ ageDays ((5 : ℚ) * 86400) 0 > 180 := by norm_num [ageDays]
    simp [dirDeletions, isCandidate, hm, ha]

/-- C9: a file whose metadata read fails is still recorded in its
directory's sorted listing as a zeroed row (size 0, mtime 0, age 0), and it
never joins the deletion-candidate rows of its directory — whatever its
name or relative path contain — so it adds nothing to the savings total,
which sums those rows. -/
theorem stat_failure_zeroed_not_candidate (now : ℚ) (rel_path : String)
    (xs ys : List RFile) (f : RFile) (hstat : f.stat = none) :
    (f.name, 0, 0, 0) ∈ dirDetailsSorted now (xs ++ f :: ys) ∧
    dirDeletions now rel_path (xs ++ f :: ys) = dirDeletions now rel_path (xs ++ ys) := by
  constructor
  · rw [dirDetailsSorted, mem_sortBySizeDesc, dirDetails]
    have hrow : detailRow now f = (f.name, 0, 0, 0) := by
      simp [detailRow, hstat]
    exact List.mem_map.mpr ⟨f, by simp, hrow⟩
  · simp [dirDeletions, List.filterMap_append, hstat]

theorem stat_failure_zeroed_not_candidate_witness :
    ("cache.tmp", 0, 0, 0) ∈ dirDetailsSorted 0 [⟨"cache.tmp", none⟩] ∧
    dirDeletions 0 "Cache" [⟨"cache.tmp", none⟩] = dirDeletions 0 "Cache" [] :=
  stat_failure_zeroed_not_candidate 0 "Cache" [] [] ⟨"cache.tmp", none⟩ rfl

/-- C5 fails on the code: the percentage of line 305 is guarded only by the
candidate list being nonempty, not by a nonzero total size.  On a tree
whose only file is a zero-byte file older than 180 days the candidate list
is nonempty while the total size is zero, `potential_savings/total_size`
raises `ZeroDivisionError`, and `generate_report` aborts through its
exception handler and returns `None` instead of skipping the percentage
step. -/
theorem zero_size_candidate_divides_by_zero :
    generateReport ((200 : ℚ) * 86400) "file_organization_report.txt"
      [⟨".", [⟨"old_empty.txt", some (0, 0)⟩]⟩] = none := by
  have hage : ageDays ((200 : ℚ) * 86400) 0 = 200 := by norm_num [ageDays]
  have h200 : (180 : ℚ) < 200 := by norm_num
  have hne : ("old_empty.txt" : String) ≠ "file_organization_report.txt" := by decide
  simp [generateReport, activeDirs, relLabel, dirDeletions, dirSize, isCandidate,
    hage, h200, hne, sortDelBySizeDesc, insertDelBySize]

theorem splitSegs_ne_nil (cs : List Char) : splitSegs cs ≠ [] := by
  induction cs with
  | nil => simp [splitSegs]
  | cons c rest ih =>
    rw [splitSegs]
    cases h : splitSegs rest with
    | nil => simp
    | cons s ss =>
      by_cases hc : c = '/' <;> simp [hc]

theorem splitext_concat (p : String) : (splitext p).1 ++ (splitext p).2 = p := by
  apply String.ext
  rw [splitext]
  split
  · simp
  · split <;> simp

theorem pad2_length (n : Nat) : (pad2 n).length = 2 := rfl

theorem pad4_length (n : Nat) : (pad4 n).length = 4 := rfl

theorem strftimeStamp_length (t : Timestamp) : (strftimeStamp t).length = 16 := by
  simp only [strftimeStamp, String.length_append, pad4_length, pad2_length]
  decide

theorem digitChar_isDigit (n : Nat) (h : n < 10) : (Nat.digitChar n).isDigit = true := by
  interval_cases n <;> decide

theorem pad2_digits (n : Nat) : ∀ c ∈ (pad2 n).data, c.isDigit := by
  intro c hc
  rcases (by simpa [pad2] using hc : c = (n / 10 % 10).digitChar ∨ c = (n % 10).digitChar)
    with rfl | rfl <;>
    exact digitChar_isDigit _ (Nat.mod_lt _ (by norm_num))

theorem pad4_digits (n : Nat) : ∀ c ∈ (pad4 n).data, c.isDigit := by
  intro c hc
  rcases (by simpa [pad4] using hc :
      c = (n / 1000 % 10).digitChar ∨ c = (n / 100 % 10).digitChar ∨
      c = (n / 10 % 10).digitChar ∨ c = (n % 10).digitChar)
    with rfl | rfl | rfl | rfl <;>
    exact digitChar_isDigit _ (Nat.mod_lt _ (by norm_num))

/-- The stamp of line 171 is an underscore, eight digits, an underscore and
six digits: a 14-digit token. -/
theorem stamp_shape (t : Timestamp) :
    ∃ a b : String, strftimeStamp t = "_" ++ a ++ "_" ++ b ∧
      a.length = 8 ∧ b.length = 6 ∧
      (∀ c ∈ a.data, c.isDigit) ∧ (∀ c ∈ b.data, c.isDigit) := by
  refine ⟨pad4 t.year ++ pad2 t.month ++ pad2 t.day,
          pad2 t.hour ++ pad2 t.minute ++ pad2 t.second, ?_, ?_, ?_, ?_, ?_⟩
  · apply String.ext
    simp [strftimeStamp]
  · simp only [String.length_append, pad4_length, pad2_length]
  · simp only [String.length_append, pad2_length]
  · intro c hc
    simp only [String.data_append, List.mem_append] at hc
    rcases hc with (h | h) | h
    · exact pad4_digits _ c h
    · exact pad2_digits _ c h
    · exact pad2_digits _ c h
  · intro c hc
    simp only [String.data_append, List.mem_append] at hc
    rcases hc with (h | h) | h
    · exact pad2_digits _ c h
    · exact pad2_digits _ c h
    · exact pad2_digits _ c h

theorem contains_iff_mem {α : Type} [BEq α] [LawfulBEq α] (l : List α) (a : α) :
    l.contains a = true ↔ a ∈ l := List.elem_iff

theorem existsPath_mkdirs_mono (fs : FS) (segs : List String) (p : List String)
    (h : existsPath fs p = true) : existsPath (mkdirs fs segs) p = true := by
  simp only [existsPath, mkdirs, Bool.or_eq_true, contains_iff_mem, List.mem_append] at *
  tauto

/-- Explicit form of one organizer iteration in the collision case: the
entry is a file, its move succeeds, and its destination path already
exists, so the stamped name is used. -/
theorem orgStep_collision (organize_by_name : Bool) (moveFails : String → Bool)
    (t : Timestamp) (fs : FS) (k : Nat) (filename : String) (c : Nat)
    (hnotdir : fs.dirs.contains [filename] = false)
    (hfind : fs.files.find? (fun e => e.path = [filename]) = some ⟨[filename], c⟩)
    (hfail : moveFails filename = false)
    (hcol : existsPath fs (catSegs (classify filename organize_by_name) ++ [filename]) = true) :
    orgStep organize_by_name moveFails t (fs, k) filename =
      (⟨fs.files.filter
          (fun e2 => decide (e2.path ≠ [filename] ∧
            e2.path ≠ catSegs (classify filename organize_by_name) ++
              [(splitext filename).1 ++ strftimeStamp t ++ (splitext filename).2]))
        ++ [⟨catSegs (classify filename organize_by_name) ++
              [(splitext filename).1 ++ strftimeStamp t ++ (splitext filename).2], c⟩],
        fs.dirs ++ prefixesOf (catSegs (classify filename organize_by_name))⟩,
       k + 1) := by
  have hex : existsPath (mkdirs fs (catSegs (classify filename organize_by_name)))
      (catSegs (classify filename organize_by_name) ++ [filename]) = true :=
    existsPath_mkdirs_mono fs _ _ hcol
  simp only [orgStep, hnotdir, Bool.false_eq_true, if_false, mkdirs] at *
  simp [hex, hfind, hfail]

theorem length_stamped (filename : String) (t : Timestamp) :
    ((splitext filename).1 ++ strftimeStamp t ++ (splitext filename).2).length
      = filename.length + 16 := by
  have h := congrArg String.length (splitext_concat filename)
  simp only [String.length_append] at *
  rw [strftimeStamp_length]
  omega

/-- C2: when the computed destination path of an incoming file already
exists, the organizer inserts the second-resolution stamp
`_YYYYMMDD_HHMMSS` — an underscore, eight digits, an underscore and six
digits, 14 digits in all — between the base name and the extension of the
incoming file and moves it under that stamped name, counting the move;
every pre-existing file at the destination path survives with its path and
content unchanged. -/
theorem collision_renames_with_stamp (organize_by_name : Bool)
    (moveFails : String → Bool) (t : Timestamp) (fs : FS) (k : Nat)
    (filename : String) (c : Nat)
    (hnotdir : fs.dirs.contains [filename] = false)
    (hfind : fs.files.find? (fun e => e.path = [filename]) = some ⟨[filename], c⟩)
    (hfail : moveFails filename = false)
    (hcol : existsPath fs (catSegs (classify filename organize_by_name) ++ [filename]) = true) :
    FSFile.mk (catSegs (classify filename organize_by_name) ++
        [(splitext filename).1 ++ strftimeStamp t ++ (splitext filename).2]) c
      ∈ (orgStep organize_by_name moveFails t (fs, k) filename).1.files ∧
    (∃ a b : String, strftimeStamp t = "_" ++ a ++ "_" ++ b ∧
      a.length = 8 ∧ b.length = 6 ∧
      (∀ ch ∈ a.data, ch.isDigit) ∧ (∀ ch ∈ b.data, ch.isDigit)) ∧
    (∀ e ∈ fs.files, e.path = catSegs (classify filename organize_by_name) ++ [filename] →
      e ∈ (orgStep organize_by_name moveFails t (fs, k) filename).1.files) ∧
    (orgStep organize_by_name moveFails t (fs, k) filename).2 = k + 1 := by
  rw [orgStep_collision organize_by_name moveFails t fs k filename c hnotdir hfind hfail hcol]
  refine ⟨by simp, stamp_shape t, ?_, rfl⟩
  intro e he hpath
  have hstamped : filename ≠
      (splitext filename).1 ++ strftimeStamp t ++ (splitext filename).2 := by
    intro heq
    have := congrArg String.length heq
    rw [length_stamped] at this
    omega
  have h1 : e.path ≠ [filename] := by
    rw [hpath]
    intro heq
    have hlen := congrArg List.length heq
    simp at hlen
    exact splitSegs_ne_nil _ hlen
  have h2 : e.path ≠ catSegs (classify filename organize_by_name) ++
      [(splitext filename).1 ++ strftimeStamp t ++ (splitext filename).2] := by
    rw [hpath]
    intro heq
    have h3 := List.append_cancel_left heq
    have h4 : filename =
        (splitext filename).1 ++ strftimeStamp t ++ (splitext filename).2 := by
      injection h3
    exact hstamped h4
  exact List.mem_append_left _ (List.mem_filter.mpr ⟨he, by simp [h1, h2]⟩)

/-- Concrete state for exercising the collision branch: the destination
`Documents/Text/notes.txt` of the top-level file `notes.txt` already
exists. -/
def fsCollision : FS :=
  ⟨[⟨["notes.txt"], 1⟩, ⟨["Documents", "Text", "notes.txt"], 2⟩], []⟩

def tsSample : Timestamp := ⟨2024, 3, 5, 10, 20, 30⟩

theorem collision_renames_with_stamp_witness :
    existsPath fsCollision
        (catSegs (classify "notes.txt" false) ++ ["notes.txt"]) = true ∧
    (FSFile.mk (catSegs (classify "notes.txt" false) ++
        [(splitext "notes.txt").1 ++ strftimeStamp tsSample ++ (splitext "notes.txt").2]) 1
      ∈ (orgStep false (fun _ => false) tsSample (fsCollision, 0) "notes.txt").1.files ∧
    (∃ a b : String, strftimeStamp tsSample = "_" ++ a ++ "_" ++ b ∧
      a.length = 8 ∧ b.length = 6 ∧
      (∀ ch ∈ a.data, ch.isDigit) ∧ (∀ ch ∈ b.data, ch.isDigit)) ∧
    (∀ e ∈ fsCollision.files,
        e.path = catSegs (classify "notes.txt" false) ++ ["notes.txt"] →
      e ∈ (orgStep false (fun _ => false) tsSample (fsCollision, 0) "notes.txt").1.files) ∧
    (orgStep false (fun _ => false) tsSample (fsCollision, 0) "notes.txt").2 = 0 + 1) :=
  ⟨by decide,
    collision_renames_with_stamp false (fun _ => false) tsSample fsCollision 0
      "notes.txt" 1 (by decide) (by decide) rfl (by decide)⟩

/-- The destination path one iteration moves to: the plain category target,
or the stamped one when the plain target already exists (lines 166-173). -/
def moveTarget (b : Bool) (t : Timestamp) (fs1 : FS) (filename : String) : List String :=
  if existsPath fs1 (catSegs (classify filename b) ++ [filename]) then
    catSegs (classify filename b) ++
      [(splitext filename).1 ++ strftimeStamp t ++ (splitext filename).2]
  else catSegs (classify filename b) ++ [filename]

theorem orgStep_skip (b : Bool) (f : String → Bool) (t : Timestamp)
    (acc : FS × Nat) (n : String) (h : acc.1.dirs.contains [n] = true) :
    orgStep b f t acc n = acc := by
  simp only [orgStep]
  rw [if_pos h]

theorem orgStep_nofile (b : Bool) (f : String → Bool) (t : Timestamp)
    (acc : FS × Nat) (n : String) (h : acc.1.dirs.contains [n] = false)
    (hf : (mkdirs acc.1 (catSegs (classify n b))).files.find?
      (fun e => e.path = [n]) = none) :
    orgStep b f t acc n = (mkdirs acc.1 (catSegs (classify n b)), acc.2) := by
  simp only [orgStep]
  rw [if_neg (fun hc => by rw [h] at hc; cases hc), hf]

theorem orgStep_fail (b : Bool) (f : String → Bool) (t : Timestamp)
    (acc : FS × Nat) (n : String) (e : FSFile) (h : acc.1.dirs.contains [n] = false)
    (hf : (mkdirs acc.1 (catSegs (classify n b))).files.find?
      (fun e2 => e2.path = [n]) = some e)
    (hm : f n = true) :
    orgStep b f t acc n = (mkdirs acc.1 (catSegs (classify n b)), acc.2) := by
  simp only [orgStep]
  rw [if_neg (fun hc => by rw [h] at hc; cases hc), hf]
  simp only [hm, if_true]

theorem orgStep_move (b : Bool) (f : String → Bool) (t : Timestamp)
    (acc : FS × Nat) (n : String) (e : FSFile) (h : acc.1.dirs.contains [n] = false)
    (hf : (mkdirs acc.1 (catSegs (classify n b))).files.find?
      (fun e2 => e2.path = [n]) = some e)
    (hm : f n = false) :
    orgStep b f t acc n =
      (⟨(mkdirs acc.1 (catSegs (classify n b))).files.filter
          (fun e2 => decide (e2.path ≠ [n] ∧
            e2.path ≠ moveTarget b t (mkdirs acc.1 (catSegs (classify n b))) n))
        ++ [⟨moveTarget b t (mkdirs acc.1 (catSegs (classify n b))) n, e.content⟩],
        (mkdirs acc.1 (catSegs (classify n b))).dirs⟩,
       acc.2 + 1) := by
  simp only [orgStep]
  rw [if_neg (fun hc => by rw [h] at hc; cases hc), hf]
  simp only [hm, Bool.false_eq_true, if_false, moveTarget]

theorem moveTarget_shape (b : Bool) (t : Timestamp) (fs1 : FS) (n : String) :
    ∃ x, moveTarget b t fs1 n = catSegs (classify n b) ++ [x] := by
  rw [moveTarget]
  split
  · exact ⟨_, rfl⟩
  · exact ⟨_, rfl⟩

theorem moveTarget_length (b : Bool) (t : Timestamp) (fs1 : FS) (n : String) :
    2 ≤ (moveTarget b t fs1 n).length := by
  obtain ⟨x, hx⟩ := moveTarget_shape b t fs1 n
  rw [hx]
  simp only [List.length_append, List.length_cons, List.length_nil]
  have := splitSegs_ne_nil (classify n b).data
  have : 1 ≤ (catSegs (classify n b)).length :=
    Nat.one_le_iff_ne_zero.mpr (fun h0 => this (List.length_eq_zero.mp h0))
  omega

theorem orgStep_dirs_extend (b : Bool) (f : String → Bool) (t : Timestamp)
    (acc : FS × Nat) (n : String) :
    ∃ l, (orgStep b f t acc n).1.dirs = acc.1.dirs ++ l := by
  by_cases hc : acc.1.dirs.contains [n] = true
  · rw [orgStep_skip b f t acc n hc]
    exact ⟨[], by simp⟩
  · have hc2 : acc.1.dirs.contains [n] = false := by
      cases h : acc.1.dirs.contains [n]
      · rfl
      · exact absurd h hc
    cases hfind : (mkdirs acc.1 (catSegs (classify n b))).files.find?
        (fun e2 => e2.path = [n]) with
    | none =>
      rw [orgStep_nofile b f t acc n hc2 hfind]
      exact ⟨prefixesOf (catSegs (classify n b)), rfl⟩
    | some e =>
      by_cases hm : f n = true
      · rw [orgStep_fail b f t acc n e hc2 hfind hm]
        exact ⟨prefixesOf (catSegs (classify n b)), rfl⟩
      · have hm2 : f n = false := by
          cases h : f n
          · rfl
          · exact absurd h hm
        rw [orgStep_move b f t acc n e hc2 hfind hm2]
        exact ⟨prefixesOf (catSegs (classify n b)), rfl⟩

theorem foldl_orgStep_dirs_extend (b : Bool) (f : String → Bool) (t : Timestamp)
    (ns : List String) : ∀ (acc : FS × Nat),
    ∃ l, ((ns.foldl (orgStep b f t) acc).1).dirs = acc.1.dirs ++ l := by
  induction ns with
  | nil => intro acc; exact ⟨[], by simp⟩
  | cons n rest ih =>
    intro acc
    obtain ⟨l1, hl1⟩ := orgStep_dirs_extend b f t acc n
    obtain ⟨l2, hl2⟩ := ih (orgStep b f t acc n)
    exact ⟨l1 ++ l2, by rw [List.foldl_cons, hl2, hl1, List.append_assoc]⟩

theorem foldl_orgStep_skip_all (b : Bool) (f : String → Bool) (t : Timestamp)
    (ns : List String) : ∀ (acc : FS × Nat),
    (∀ n ∈ ns, acc.1.dirs.contains [n] = true) →
    ns.foldl (orgStep b f t) acc = acc := by
  induction ns with
  | nil => intro acc _; rfl
  | cons n rest ih =>
    intro acc h
    rw [List.foldl_cons, orgStep_skip b f t acc n (h n (by simp))]
    exact ih acc (fun m hm => h m (by simp [hm]))

theorem orgStep_count_le (b : Bool) (f : String → Bool) (t : Timestamp)
    (acc : FS × Nat) (n : String) :
    (orgStep b f t acc n).2 ≤ acc.2 + 1 := by
  by_cases hc : acc.1.dirs.contains [n] = true
  · rw [orgStep_skip b f t acc n hc]; omega
  · have hc2 : acc.1.dirs.contains [n] = false := by
      cases h : acc.1.dirs.contains [n]
      · rfl
      · exact absurd h hc
    cases hfind : (mkdirs acc.1 (catSegs (classify n b))).files.find?
        (fun e2 => e2.path = [n]) with
    | none => rw [orgStep_nofile b f t acc n hc2 hfind]; omega
    | some e =>
      by_cases hm : f n = true
      · rw [orgStep_fail b f t acc n e hc2 hfind hm]; omega
      · have hm2 : f n = false := by
          cases h : f n
          · rfl
          · exact absurd h hm
        rw [orgStep_move b f t acc n e hc2 hfind hm2]

theorem foldl_orgStep_count_le (b : Bool) (f : String → Bool) (t : Timestamp)
    (ns : List String) : ∀ (acc : FS × Nat),
    (ns.foldl (orgStep b f t) acc).2 ≤ acc.2 + ns.length := by
  induction ns with
  | nil => intro acc; simp
  | cons n rest ih =>
    intro acc
    rw [List.foldl_cons]
    have h1 := orgStep_count_le b f t acc n
    have h2 := ih (orgStep b f t acc n)
    simp only [List.length_cons]
    omega

theorem orgStep_deep_preserved (b : Bool) (f : String → Bool) (t : Timestamp)
    (acc : FS × Nat) (n : String) (p : List String) (hlen : 2 ≤ p.length)
    (hp : ∃ e ∈ acc.1.files, e.path = p) :
    ∃ e2 ∈ (orgStep b f t acc n).1.files, e2.path = p := by
  by_cases hc : acc.1.dirs.contains [n] = true
  · rw [orgStep_skip b f t acc n hc]; exact hp
  · have hc2 : acc.1.dirs.contains [n] = false := by
      cases h : acc.1.dirs.contains [n]
      · rfl
      · exact absurd h hc
    cases hfind : (mkdirs acc.1 (catSegs (classify n b))).files.find?
        (fun e2 => e2.path = [n]) with
    | none => rw [orgStep_nofile b f t acc n hc2 hfind]; exact hp
    | some e =>
      by_cases hm : f n = true
      · rw [orgStep_fail b f t acc n e hc2 hfind hm]; exact hp
      · have hm2 : f n = false := by
          cases h : f n
          · rfl
          · exact absurd h hm
        rw [orgStep_move b f t acc n e hc2 hfind hm2]
        obtain ⟨e1, he1, hpath⟩ := hp
        by_cases htgt : p = moveTarget b t (mkdirs acc.1 (catSegs (classify n b))) n
        · refine ⟨⟨moveTarget b t (mkdirs acc.1 (catSegs (classify n b))) n, e.content⟩,
            ?_, htgt.symm⟩
          simp
        · refine ⟨e1, ?_, hpath⟩
          apply List.mem_append_left
          apply List.mem_filter.mpr
          refine ⟨he1, ?_⟩
          have hne1 : e1.path ≠ [n] := by
            rw [hpath]; intro heq
            rw [heq] at hlen; simp at hlen
          have hne2 : e1.path ≠ moveTarget b t (mkdirs acc.1 (catSegs (classify n b))) n := by
            rw [hpath]; exact htgt
          simp [hne1, hne2]

theorem foldl_orgStep_deep_preserved (b : Bool) (f : String → Bool) (t : Timestamp)
    (ns : List String) : ∀ (acc : FS × Nat) (p : List String), 2 ≤ p.length →
    (∃ e ∈ acc.1.files, e.path = p) →
    ∃ e2 ∈ (ns.foldl (orgStep b f t) acc).1.files, e2.path = p := by
  induction ns with
  | nil => intro acc p _ hp; exact hp
  | cons n rest ih =>
    intro acc p hlen hp
    rw [List.foldl_cons]
    exact ih (orgStep b f t acc n) p hlen (orgStep_deep_preserved b f t acc n p hlen hp)

theorem mem_dirs_of_topDirNames (fs : FS) (d : String) (h : d ∈ topDirNames fs) :
    [d] ∈ fs.dirs := by
  simp only [topDirNames, List.mem_filterMap] at h
  obtain ⟨p, hp, hmatch⟩ := h
  cases p with
  | nil => simp at hmatch
  | cons x xs =>
    cases xs with
    | nil =>
      simp at hmatch
      subst hmatch
      exact hp
    | cons y ys => simp at hmatch

/-- C10: `organize_files` snapshots the listing once, before any move:
every invocation moves at most as many files as there are top-level files
in the initial state, and every file already lying below a subdirectory —
including the category folders moves target — keeps its path, so a file
placed into a category folder during a run is never picked up again by
that same run. -/
theorem single_pass_bound (b : Bool) (f : String → Bool) (t : Timestamp) (fs : FS) :
    (organizeFiles b f t fs).2 ≤ (topFileNames fs).length ∧
    ∀ p : List String, 2 ≤ p.length → (∃ e ∈ fs.files, e.path = p) →
      ∃ e2 ∈ (organizeFiles b f t fs).1.files, e2.path = p := by
  have hsplit : organizeFiles b f t fs
      = (topDirNames fs).foldl (orgStep b f t)
          ((topFileNames fs).foldl (orgStep b f t) (fs, 0)) := by
    rw [organizeFiles, listing, List.foldl_append]
  have hskip : (topDirNames fs).foldl (orgStep b f t)
      ((topFileNames fs).foldl (orgStep b f t) (fs, 0))
      = (topFileNames fs).foldl (orgStep b f t) (fs, 0) := by
    apply foldl_orgStep_skip_all
    intro d hd
    apply (contains_iff_mem _ _).mpr
    obtain ⟨l, hl⟩ := foldl_orgStep_dirs_extend b f t (topFileNames fs) (fs, 0)
    rw [hl]
    exact List.mem_append_left _ (mem_dirs_of_topDirNames fs d hd)
  constructor
  · rw [hsplit, hskip]
    have := foldl_orgStep_count_le b f t (topFileNames fs) (fs, 0)
    simpa using this
  · intro p hlen hp
    rw [hsplit, hskip]
    exact foldl_orgStep_deep_preserved b f t (topFileNames fs) (fs, 0) p hlen hp

theorem single_pass_bound_witness :
    (organizeFiles false (fun _ => false) tsSample fsCollision).2
      ≤ (topFileNames fsCollision).length ∧
    ∃ e2 ∈ (organizeFiles false (fun _ => false) tsSample fsCollision).1.files,
      e2.path = ["Documents", "Text", "notes.txt"] :=
  ⟨(single_pass_bound false (fun _ => false) tsSample fsCollision).1,
   (single_pass_bound false (fun _ => false) tsSample fsCollision).2
     ["Documents", "Text", "notes.txt"] (by decide)
     ⟨⟨["Documents", "Text", "notes.txt"], 2⟩, by decide, rfl⟩⟩

theorem exists_file_of_topFileNames (fs : FS) (n : String) (h : n ∈ topFileNames fs) :
    ∃ e ∈ fs.files, e.path = [n] := by
  simp only [topFileNames, List.mem_filterMap] at h
  obtain ⟨e, he, hm⟩ := h
  cases hp : e.path with
  | nil => rw [hp] at hm; simp at hm
  | cons x xs =>
    cases xs with
    | nil =>
      rw [hp] at hm
      simp at hm
      subst hm
      exact ⟨e, he, hp⟩
    | cons y ys => rw [hp] at hm; simp at hm

/-- The per-listing induction behind the moved-files counter: on a clean
state (every pending name is a real top-level file, no pending name is or
becomes a directory), the fold counts exactly the non-failing names, in
particular a failing move skips one file without ending the fold. -/
theorem orgList_count (b : Bool) (f : String → Bool) (t : Timestamp) :
    ∀ (ns : List String) (st : FS) (k : Nat),
    ns.Nodup →
    (∀ n ∈ ns, [n] ∉ st.dirs) →
    (∀ n ∈ ns, ∀ m ∈ ns, [n] ∉ prefixesOf (catSegs (classify m b))) →
    (∀ n ∈ ns, ∃ e ∈ st.files, e.path = [n]) →
    (ns.foldl (orgStep b f t) (st, k)).2 = k + (ns.filter (fun n => !f n)).length := by
  intro ns
  induction ns with
  | nil => intro st k _ _ _ _; simp
  | cons n rest ih =>
    intro st k hnd hdirs hpre hex
    rw [List.foldl_cons]
    have hnmem : n ∉ rest := (List.nodup_cons.mp hnd).1
    have hc2 : st.dirs.contains [n] = false := by
      cases h : st.dirs.contains [n]
      · rfl
      · exact absurd ((contains_iff_mem _ _).mp h) (hdirs n (by simp))
    obtain ⟨e0, he0, hpath0⟩ := hex n (by simp)
    have hfs : ∃ e', (mkdirs st (catSegs (classify n b))).files.find?
        (fun e2 => e2.path = [n]) = some e' := by
      cases hq : (mkdirs st (catSegs (classify n b))).files.find?
          (fun e2 => e2.path = [n]) with
      | some e' => exact ⟨e', rfl⟩
      | none =>
        exfalso
        have hnone := List.find?_eq_none.mp hq e0 he0
        simp [hpath0] at hnone
    obtain ⟨e', hfind⟩ := hfs
    have hdirs2 : ∀ m ∈ rest, [m] ∉ (mkdirs st (catSegs (classify n b))).dirs := by
      intro m hm
      simp only [mkdirs, List.mem_append]
      rintro (h | h)
      · exact hdirs m (by simp [hm]) h
      · exact hpre m (by simp [hm]) n (by simp) h
    have hpre2 : ∀ n2 ∈ rest, ∀ m ∈ rest,
        [n2] ∉ prefixesOf (catSegs (classify m b)) :=
      fun n2 hn2 m hm => hpre n2 (by simp [hn2]) m (by simp [hm])
    by_cases hm : f n = true
    · rw [orgStep_fail b f t (st, k) n e' hc2 hfind hm]
      have hexr : ∀ m ∈ rest,
          ∃ e ∈ (mkdirs st (catSegs (classify n b))).files, e.path = [m] := by
        intro m hmem
        exact hex m (by simp [hmem])
      rw [ih (mkdirs st (catSegs (classify n b))) k
        (List.nodup_cons.mp hnd).2 hdirs2 hpre2 hexr]
      simp [List.filter_cons, hm]
    · have hm2 : f n = false := by
        cases h : f n
        · rfl
        · exact absurd h hm
      rw [orgStep_move b f t (st, k) n e' hc2 hfind hm2]
      have hexr : ∀ m ∈ rest,
          ∃ e ∈ (mkdirs st (catSegs (classify n b))).files.filter
            (fun e2 => decide (e2.path ≠ [n] ∧
              e2.path ≠ moveTarget b t (mkdirs st (catSegs (classify n b))) n))
          ++ [⟨moveTarget b t (mkdirs st (catSegs (classify n b))) n, e'.content⟩],
          e.path = [m] := by
        intro m hmem
        obtain ⟨e, he, hp⟩ := hex m (by simp [hmem])
        refine ⟨e, ?_, hp⟩
        apply List.mem_append_left
        apply List.mem_filter.mpr
        refine ⟨he, ?_⟩
        have h1 : e.path ≠ [n] := by
          rw [hp]
          intro heq
          exact hnmem (by injection heq with h; rw [← h]; exact hmem)
        have h2 : e.path ≠ moveTarget b t (mkdirs st (catSegs (classify n b))) n := by
          rw [hp]
          intro heq
          have := moveTarget_length b t (mkdirs st (catSegs (classify n b))) n
          rw [← heq] at this
          simp at this
        simp [h1, h2]
      have := ih ⟨(mkdirs st (catSegs (classify n b))).files.filter
            (fun e2 => decide (e2.path ≠ [n] ∧
              e2.path ≠ moveTarget b t (mkdirs st (catSegs (classify n b))) n))
          ++ [⟨moveTarget b t (mkdirs st (catSegs (classify n b))) n, e'.content⟩],
          (mkdirs st (catSegs (classify n b))).dirs⟩ (k + 1)
        (List.nodup_cons.mp hnd).2 hdirs2 hpre2 hexr
      rw [this]
      simp [List.filter_cons, hm2]
      omega

/-- C6: on a clean directory state, a failing move (the `except` of line
180 catching `shutil.move`) only skips that one file: the fold runs to the
end of the listing and the returned counter is exactly the number of
top-level files whose moves succeed. -/
theorem moved_count_continue_on_error (b : Bool) (f : String → Bool) (t : Timestamp)
    (fs : FS)
    (hnd : (topFileNames fs).Nodup)
    (hdirs : ∀ n ∈ topFileNames fs, [n] ∉ fs.dirs)
    (hpre : ∀ n ∈ topFileNames fs, ∀ m ∈ topFileNames fs,
        [n] ∉ prefixesOf (catSegs (classify m b))) :
    (organizeFiles b f t fs).2 = ((topFileNames fs).filter (fun n => !f n)).length := by
  have hsplit : organizeFiles b f t fs
      = (topDirNames fs).foldl (orgStep b f t)
          ((topFileNames fs).foldl (orgStep b f t) (fs, 0)) := by
    rw [organizeFiles, listing, List.foldl_append]
  have hskip : (topDirNames fs).foldl (orgStep b f t)
      ((topFileNames fs).foldl (orgStep b f t) (fs, 0))
      = (topFileNames fs).foldl (orgStep b f t) (fs, 0) := by
    apply foldl_orgStep_skip_all
    intro d hd
    apply (contains_iff_mem _ _).mpr
    obtain ⟨l, hl⟩ := foldl_orgStep_dirs_extend b f t (topFileNames fs) (fs, 0)
    rw [hl]
    exact List.mem_append_left _ (mem_dirs_of_topDirNames fs d hd)
  rw [hsplit, hskip]
  simpa using orgList_count b f t (topFileNames fs) fs 0 hnd hdirs hpre
    (fun n hn => exists_file_of_topFileNames fs n hn)

/-- Two top-level files, no directories, the move of `a.txt` fails. -/
def fsTwo : FS := ⟨[⟨["a.txt"], 1⟩, ⟨["b.pdf"], 2⟩], []⟩

theorem moved_count_continue_on_error_witness :
    (topFileNames fsTwo).Nodup ∧
    ((topFileNames fsTwo).filter (fun n => !(n == "a.txt"))).length = 1 ∧
    (organizeFiles false (fun n => n == "a.txt") tsSample fsTwo).2
      = ((topFileNames fsTwo).filter (fun n => !(n == "a.txt"))).length :=
  ⟨by decide, by decide,
    moved_count_continue_on_error false (fun n => n == "a.txt") tsSample fsTwo
      (by decide) (by decide) (by decide)⟩

/-- When every move succeeds, processing the pending names removes every
top-level file: afterwards no file of the state sits at depth one. -/
theorem orgList_clears_top (b : Bool) (t : Timestamp) :
    ∀ (ns : List String) (st : FS) (k : Nat),
    (∀ n ∈ ns, [n] ∉ st.dirs) →
    (∀ n ∈ ns, ∀ m ∈ ns, [n] ∉ prefixesOf (catSegs (classify m b))) →
    (∀ e ∈ st.files, e.path.length = 1 → ∃ n ∈ ns, e.path = [n]) →
    ∀ e2 ∈ (ns.foldl (orgStep b (fun _ => false) t) (st, k)).1.files,
      e2.path.length ≠ 1 := by
  intro ns
  induction ns with
  | nil =>
    intro st k _ _ hcov e2 he2 hlen
    obtain ⟨n, hn, _⟩ := hcov e2 he2 hlen
    simp at hn
  | cons n rest ih =>
    intro st k hdirs hpre hcov
    rw [List.foldl_cons]
    have hc2 : st.dirs.contains [n] = false := by
      cases h : st.dirs.contains [n]
      · rfl
      · exact absurd ((contains_iff_mem _ _).mp h) (hdirs n (by simp))
    have hdirs2 : ∀ m ∈ rest, [m] ∉ (mkdirs st (catSegs (classify n b))).dirs := by
      intro m hm
      simp only [mkdirs, List.mem_append]
      rintro (h | h)
      · exact hdirs m (by simp [hm]) h
      · exact hpre m (by simp [hm]) n (by simp) h
    have hpre2 : ∀ n2 ∈ rest, ∀ m ∈ rest,
        [n2] ∉ prefixesOf (catSegs (classify m b)) :=
      fun n2 hn2 m hm => hpre n2 (by simp [hn2]) m (by simp [hm])
    cases hfind : (mkdirs st (catSegs (classify n b))).files.find?
        (fun e2 => e2.path = [n]) with
    | none =>
      rw [orgStep_nofile b (fun _ => false) t (st, k) n hc2 hfind]
      apply ih (mkdirs st (catSegs (classify n b))) k hdirs2 hpre2
      intro e he hlen
      obtain ⟨m, hm, hp⟩ := hcov e he hlen
      rcases List.mem_cons.mp hm with rfl | hm2
      · exfalso
        have hnone := List.find?_eq_none.mp hfind e he
        simp [hp] at hnone
      · exact ⟨m, hm2, hp⟩
    | some e' =>
      rw [orgStep_move b (fun _ => false) t (st, k) n e' hc2 hfind rfl]
      refine ih _ _ ?_ ?_ ?_
      · exact hdirs2
      · exact hpre2
      intro e he hlen
      rcases List.mem_append.mp he with hin | hone
      · have hfe := List.mem_filter.mp hin
        obtain ⟨m, hm, hp⟩ := hcov e hfe.1 hlen
        rcases List.mem_cons.mp hm with rfl | hm2
        · exfalso
          have hcond := hfe.2
          simp at hcond
          exact hcond.1 hp
        · exact ⟨m, hm2, hp⟩
      · exfalso
        simp at hone
        have := moveTarget_length b t (mkdirs st (catSegs (classify n b))) n
        rw [hone] at hlen
        simp at hlen
        omega

theorem topFileNames_covers (fs : FS) (e : FSFile) (he : e ∈ fs.files)
    (hlen : e.path.length = 1) : ∃ n ∈ topFileNames fs, e.path = [n] := by
  cases hp : e.path with
  | nil => rw [hp] at hlen; simp at hlen
  | cons x xs =>
    cases xs with
    | nil =>
      refine ⟨x, ?_, rfl⟩
      simp only [topFileNames, List.mem_filterMap]
      exact ⟨e, he, by rw [hp]⟩
    | cons y ys => rw [hp] at hlen; simp at hlen

theorem topFileNames_eq_nil (fs : FS) (h : ∀ e ∈ fs.files, e.path.length ≠ 1) :
    topFileNames fs = [] := by
  rw [topFileNames, List.filterMap_eq_nil_iff]
  intro e he
  cases hp : e.path with
  | nil => rfl
  | cons x xs =>
    cases xs with
    | nil => exact absurd (by rw [hp]; rfl) (h e he)
    | cons y ys => rfl

/-- C7: after one run of `organize_files` in which every top-level move
succeeds, the resulting state has no top-level regular files; a second run
over it — with any move oracle and any clock — sees only subdirectories,
skips each without recursing or reclassifying, moves zero files, returns
0, and leaves the state exactly as the first run left it. -/
theorem organize_idempotent (b : Bool) (f2 : String → Bool) (t1 t2 : Timestamp)
    (fs : FS)
    (hdirs : ∀ n ∈ topFileNames fs, [n] ∉ fs.dirs)
    (hpre : ∀ n ∈ topFileNames fs, ∀ m ∈ topFileNames fs,
        [n] ∉ prefixesOf (catSegs (classify m b))) :
    organizeFiles b f2 t2 (organizeFiles b (fun _ => false) t1 fs).1
      = ((organizeFiles b (fun _ => false) t1 fs).1, 0) := by
  have hsplit : organizeFiles b (fun _ => false) t1 fs
      = (topDirNames fs).foldl (orgStep b (fun _ => false) t1)
          ((topFileNames fs).foldl (orgStep b (fun _ => false) t1) (fs, 0)) := by
    rw [organizeFiles, listing, List.foldl_append]
  have hskip1 : (topDirNames fs).foldl (orgStep b (fun _ => false) t1)
      ((topFileNames fs).foldl (orgStep b (fun _ => false) t1) (fs, 0))
      = (topFileNames fs).foldl (orgStep b (fun _ => false) t1) (fs, 0) := by
    apply foldl_orgStep_skip_all
    intro d hd
    apply (contains_iff_mem _ _).mpr
    obtain ⟨l, hl⟩ := foldl_orgStep_dirs_extend b (fun _ => false) t1 (topFileNames fs) (fs, 0)
    rw [hl]
    exact List.mem_append_left _ (mem_dirs_of_topDirNames fs d hd)
  have hst1 : (organizeFiles b (fun _ => false) t1 fs).1
      = ((topFileNames fs).foldl (orgStep b (fun _ => false) t1) (fs, 0)).1 := by
    rw [hsplit, hskip1]
  have hclear := orgList_clears_top b t1 (topFileNames fs) fs 0 hdirs hpre
    (fun e he hl => topFileNames_covers fs e he hl)
  have htop : topFileNames (organizeFiles b (fun _ => false) t1 fs).1 = [] := by
    rw [hst1]
    exact topFileNames_eq_nil _ hclear
  rw [organizeFiles, listing, htop, List.nil_append]
  apply foldl_orgStep_skip_all
  intro d hd
  exact (contains_iff_mem _ _).mpr (mem_dirs_of_topDirNames _ d hd)

theorem organize_idempotent_witness :
    (∀ n ∈ topFileNames fsTwo, [n] ∉ fsTwo.dirs) ∧
    organizeFiles false (fun _ => false) tsSample
        (organizeFiles false (fun _ => false) tsSample fsTwo).1
      = ((organizeFiles false (fun _ => false) tsSample fsTwo).1, 0) :=
  ⟨by decide,
    organize_idempotent false (fun _ => false) tsSample tsSample fsTwo
      (by decide) (by decide)⟩
